import Mathlib

set_option linter.unusedVariables false
set_option maxRecDepth 8000

/-!
Shallow embedding of the SSD1312 OLED display driver (`src/lib.rs`).

The driver owns a 1024-byte framebuffer (`[u8; 1024]`) and an I2C bus handle.
We model the bus as an oracle giving the outcome of each successive write
(`none` = success, `some e` = transport error), and driver computations as
state transformers that additionally emit a trace of observable events
(I2C write transactions and blocking delays).
-/

/-- Transport error kinds of the external I2C bus (embassy `i2c::Error`). -/
inductive I2cError where
  | bus
  | arbitration
  | nack
  | timeout
  | crc
  | overrun
  | zeroLengthTransfer
deriving DecidableEq, Repr

/-- Observable effects: blocking delays (ms) and I2C write transactions
(the payload bytes sent to the fixed slave address 0x3C). -/
inductive Event where
  | delayMs : Nat → Event
  | write : List Nat → Event
deriving DecidableEq, Repr

/-- The framebuffer `[u8; 1024]`, modelled as a list of byte values. -/
abbrev Buffer := List Nat

/-- Driver state: the framebuffer plus the number of I2C writes attempted so
far (the index into the bus oracle). -/
structure DState where
  buffer : Buffer
  writes : Nat
deriving DecidableEq, Repr

/-- Bus oracle: outcome of the n-th I2C write (`none` = success). -/
abbrev Bus := Nat → Option I2cError

/-- Driver computations: state in; (outcome, state out, emitted events). -/
def DriverM (α : Type) := DState → Except I2cError α × DState × List Event

instance : Monad DriverM where
  pure a := fun s => (Except.ok a, s, [])
  bind x f := fun s =>
    match x s with
    | (Except.ok a, s', t) =>
      match f a s' with
      | (r, s'', t') => (r, s'', t ++ t')
    | (Except.error e, s', t) => (Except.error e, s', t)

/-- One raw I2C write of `payload` (`self.i2c.write(SSD1312_I2C_ADDR, ...)`):
consults the bus oracle at the current write index. -/
def i2c_write (bus : Bus) (payload : List Nat) : DriverM Unit := fun s =>
  (match bus s.writes with
   | none => Except.ok ()
   | some e => Except.error e,
   ⟨s.buffer, s.writes + 1⟩, [Event.write payload])

/-- Blocking delay of `n` milliseconds (infallible). -/
def delay_ms (n : Nat) : DriverM Unit := fun s =>
  (Except.ok (), s, [Event.delayMs n])

/-- Read the current framebuffer. -/
def get_buffer : DriverM Buffer := fun s => (Except.ok s.buffer, s, [])

/-- Apply a pure update to the framebuffer. -/
def modify_buffer (f : Buffer → Buffer) : DriverM Unit := fun s =>
  (Except.ok (), ⟨f s.buffer, s.writes⟩, [])

/-- `send_command`: one transaction `[0x00, cmd]`. -/
def send_command (bus : Bus) (cmd : Nat) : DriverM Unit :=
  i2c_write bus [0x00, cmd]

/-- `send_commands`: each command in order, stopping at the first failure. -/
def send_commands (bus : Bus) (cmds : List Nat) : DriverM Unit :=
  match cmds with
  | [] => pure ()
  | c :: rest => do
    send_command bus c
    send_commands bus rest

/-- `send_data`: no-op on empty input, else one transaction
`[0x40] ++ data[0 .. min(len, 128)]`. -/
def send_data (bus : Bus) (data : List Nat) : DriverM Unit :=
  if data.isEmpty then pure ()
  else i2c_write bus (0x40 :: data.take 128)

/-- `set_page`: command `0xB0 | page` when `page < 8`, else no-op. -/
def set_page (bus : Bus) (page : Nat) : DriverM Unit :=
  if page < 8 then send_command bus (0xB0 ||| page) else pure ()

/-- `set_column`: low-nibble command then `0x10 | (col >> 4)` when
`col < 128`, else no-op. -/
def set_column (bus : Bus) (col : Nat) : DriverM Unit :=
  if col < 128 then do
    send_command bus (col &&& 0x0F)
    send_command bus (0x10 ||| (col >>> 4))
  else pure ()

/-- `init`: 20 ms delay, the fixed command sequence, 100 ms delay.
Each `?` propagates the first transport error. -/
def init (bus : Bus) : DriverM Unit := do
  delay_ms 20
  send_command bus 0xAE
  send_commands bus [0xD5, 0x80]
  send_commands bus [0xA8, 0x3F]
  send_commands bus [0xD3, 0x00]
  send_command bus 0x40
  send_commands bus [0x8D, 0x12]
  send_commands bus [0x20, 0x02]
  send_command bus 0xA0
  send_command bus 0xC8
  send_commands bus [0xDA, 0x12]
  send_commands bus [0x81, 0x7F]
  send_commands bus [0xD9, 0x22]
  send_commands bus [0xDB, 0x20]
  send_command bus 0xA4
  send_command bus 0xA6
  send_command bus 0xAF
  delay_ms 100

/-- Byte/bit addressing of `set_pixel`: `index = (y / 8) * SCREEN_WIDTH + x`. -/
def pixel_index (x y : Nat) : Nat := (y / 8) * 128 + x

/-- `set_pixel`: out-of-bounds coordinates are silently ignored; otherwise set
or clear bit `y % 8` of byte `pixel_index x y`. `!(1u8 << bit)` is
`255 ^^^ (1 <<< bit)`. -/
def set_pixel (x y : Nat) (isOn : Bool) (b : Buffer) : Buffer :=
  if x ≥ 128 ∨ y ≥ 64 then b
  else
    let bit_pos := y % 8
    let index := pixel_index x y
    if index < b.length then
      if isOn then b.set index (b.getD index 0 ||| (1 <<< bit_pos))
      else b.set index (b.getD index 0 &&& (255 ^^^ (1 <<< bit_pos)))
    else b

/-- `clear_buffer`: `self.buffer.fill(0)`. -/
def clear_buffer (b : Buffer) : Buffer := b.map (fun _ => 0)

/-- One iteration of the `display` page loop: set page, set column 0, then send
the page's 128-byte slice (guarded by `end_idx <= self.buffer.len()`). -/
def display_page (bus : Bus) (page : Nat) : DriverM Unit := do
  set_page bus page
  set_column bus 0
  let b ← get_buffer
  if page * 128 + 128 ≤ b.length then
    send_data bus ((b.drop (page * 128)).take 128)
  else
    pure ()

/-- The `for page in 0..PAGE_COUNT` loop of `display`. -/
def display_loop (bus : Bus) : List Nat → DriverM Unit
  | [] => pure ()
  | p :: ps => do
    display_page bus p
    display_loop bus ps

/-- `display`: flush all 8 pages in ascending order. -/
def display (bus : Bus) : DriverM Unit := display_loop bus (List.range 8)

/-- `clear`: `clear_buffer()` then `display()`. -/
def clear (bus : Bus) : DriverM Unit := do
  modify_buffer clear_buffer
  display bus

/-- The pixel-setting loop of `draw_horizontal_line`. Rust computes `x + i` in
`u8`, which wraps modulo 256 (release semantics). -/
def hline_pixels (x y w : Nat) (b : Buffer) : Buffer :=
  (List.range w).foldl
    (fun acc i =>
      if (x + i) % 256 < 128 then set_pixel ((x + i) % 256) y true acc else acc)
    b

/-- `draw_horizontal_line`: set the span's pixels, then flush. -/
def draw_horizontal_line (bus : Bus) (x y w : Nat) : DriverM Unit := do
  modify_buffer (hline_pixels x y w)
  display bus

/-- The pixel-setting loop of `draw_vertical_line` (`y + i` wraps in `u8`). -/
def vline_pixels (x y h : Nat) (b : Buffer) : Buffer :=
  (List.range h).foldl
    (fun acc i =>
      if (y + i) % 256 < 64 then set_pixel x ((y + i) % 256) true acc else acc)
    b

/-- `draw_vertical_line`: set the span's pixels, then flush. -/
def draw_vertical_line (bus : Bus) (x y h : Nat) : DriverM Unit := do
  modify_buffer (vline_pixels x y h)
  display bus

/-- Two's-complement wrap of a mathematical integer into `i32`. -/
def wrap32 (z : Int) : Int := (z + 2 ^ 31) % 2 ^ 32 - 2 ^ 31

/-- `draw_text_centered`, parametric in the delegate `draw_text_small`
(external font rasterisation): `text_width = text.len() as i32 * font_width`,
`x = (SCREEN_WIDTH as i32 - text_width) / 2`, then delegate. `i32` arithmetic
wraps modulo 2^32 (release semantics); `/` truncates toward zero. -/
def draw_text_centered (draw_small : Int → Int → α) (text_len : Nat)
    (y font_width : Int) : α :=
  let text_width := wrap32 (wrap32 (text_len : Int) * font_width)
  let x := Int.tdiv (wrap32 (128 - text_width)) 2
  draw_small x y

/-- A bus on which every write succeeds. -/
def busOk : Bus := fun _ => none

/-- A bus on which exactly the k-th write fails with error `e`. -/
def busFailAt (k : Nat) (e : I2cError) : Bus :=
  fun n => if n = k then some e else none

/-- The all-zero framebuffer. -/
def zeroBuf : Buffer := List.replicate 1024 0

/-- The 25 command bytes of the init sequence, in order. -/
def initCmds : List Nat :=
  [0xAE, 0xD5, 0x80, 0xA8, 0x3F, 0xD3, 0x00, 0x40, 0x8D, 0x12, 0x20, 0x02,
   0xA0, 0xC8, 0xDA, 0x12, 0x81, 0x7F, 0xD9, 0x22, 0xDB, 0x20, 0xA4, 0xA6, 0xAF]

/-- Expected events of one page of a `display` flush of an all-zero frame:
set page, the two column-address commands, then 128 zero data bytes. -/
def pageTraceZero (p : Nat) : List Event :=
  [Event.write [0x00, 0xB0 ||| p], Event.write [0x00, 0x00],
   Event.write [0x00, 0x10], Event.write (0x40 :: List.replicate 128 0)]

/-- Expected event trace of one full `display` flush of an all-zero frame. -/
def displayZeroTrace : List Event :=
  (List.range 8).foldr (fun p t => pageTraceZero p ++ t) []

/-- Pixel (x, y) read back through the addressing scheme. -/
def pixelOn (b : Buffer) (x y : Nat) : Bool :=
  (b.getD (pixel_index x y) 0).testBit (y % 8)

/-- All buffer entries are byte values. -/
def byteBuf (b : Buffer) : Prop := ∀ v ∈ b, v < 256


/-! ### Basic facts about the driver monad -/

/-- Unfolding `bind` at a state. -/
theorem bind_apply (x : DriverM α) (f : α → DriverM β) (s : DState) :
    (x >>= f) s =
      match x s with
      | (Except.ok a, s', t) =>
        match f a s' with
        | (r, s'', t') => (r, s'', t ++ t')
      | (Except.error e, s', t) => (Except.error e, s', t) := rfl

/-- Unfolding `pure` at a state. -/
theorem pure_apply (a : α) (s : DState) :
    (pure a : DriverM α) s = (Except.ok a, s, []) := rfl

/-- `i2c_write` on a bus answering success at the current index. -/
theorem i2c_write_ok (bus : Bus) (payload : List Nat) (b : Buffer) (n : Nat)
    (h : bus n = none) :
    i2c_write bus payload ⟨b, n⟩ =
      (Except.ok (), ⟨b, n + 1⟩, [Event.write payload]) := by
  simp [i2c_write, h]

/-- `i2c_write` on a bus answering failure at the current index. -/
theorem i2c_write_err (bus : Bus) (payload : List Nat) (b : Buffer) (n : Nat)
    (e : I2cError) (h : bus n = some e) :
    i2c_write bus payload ⟨b, n⟩ =
      (Except.error e, ⟨b, n + 1⟩, [Event.write payload]) := by
  simp [i2c_write, h]

theorem busOk_apply (n : Nat) : busOk n = none := rfl

theorem busFailAt_ne (k : Nat) (e : I2cError) (n : Nat) (h : n ≠ k) :
    busFailAt k e n = none := by simp [busFailAt, h]

theorem busFailAt_eq (k : Nat) (e : I2cError) :
    busFailAt k e k = some e := by simp [busFailAt]

/-- A computation that never touches the framebuffer. -/
def preservesBuf (m : DriverM α) : Prop :=
  ∀ s : DState, ((m s).2.1).buffer = s.buffer

theorem preservesBuf_bind {x : DriverM α} {f : α → DriverM β}
    (hx : preservesBuf x) (hf : ∀ a, preservesBuf (f a)) :
    preservesBuf (x >>= f) := by
  intro s
  rw [bind_apply]
  rcases hxs : x s with ⟨r, s', t⟩
  rcases r with e | a
  · simpa using (by simpa [hxs] using hx s)
  · have h1 : s'.buffer = s.buffer := by simpa [hxs] using hx s
    have h2 := hf a s'
    rcases hfs : f a s' with ⟨r', s'', t'⟩
    simp only [hfs]
    simpa [hfs, h1] using h2

theorem preservesBuf_pure (a : α) : preservesBuf (pure a : DriverM α) :=
  fun _ => rfl

theorem preservesBuf_i2c_write (bus : Bus) (p : List Nat) :
    preservesBuf (i2c_write bus p) := by
  intro s
  rfl

theorem preservesBuf_delay_ms (n : Nat) : preservesBuf (delay_ms n) :=
  fun _ => rfl

theorem preservesBuf_get_buffer : preservesBuf get_buffer :=
  fun _ => rfl

theorem preservesBuf_send_command (bus : Bus) (c : Nat) :
    preservesBuf (send_command bus c) :=
  preservesBuf_i2c_write bus [0x00, c]

theorem preservesBuf_send_commands (bus : Bus) (cmds : List Nat) :
    preservesBuf (send_commands bus cmds) := by
  induction cmds with
  | nil => exact preservesBuf_pure ()
  | cons c rest ih =>
    exact preservesBuf_bind (preservesBuf_send_command bus c) (fun _ => ih)

theorem preservesBuf_send_data (bus : Bus) (d : List Nat) :
    preservesBuf (send_data bus d) := by
  unfold send_data
  split
  · exact preservesBuf_pure ()
  · exact preservesBuf_i2c_write bus _

theorem preservesBuf_set_page (bus : Bus) (p : Nat) :
    preservesBuf (set_page bus p) := by
  unfold set_page
  split
  · exact preservesBuf_send_command bus _
  · exact preservesBuf_pure ()

theorem preservesBuf_set_column (bus : Bus) (c : Nat) :
    preservesBuf (set_column bus c) := by
  unfold set_column
  split
  · exact preservesBuf_bind (preservesBuf_send_command bus _)
      (fun _ => preservesBuf_send_command bus _)
  · exact preservesBuf_pure ()

theorem preservesBuf_init (bus : Bus) : preservesBuf (init bus) := by
  unfold init
  repeat
    first
    | exact preservesBuf_delay_ms _
    | exact preservesBuf_send_command bus _
    | exact preservesBuf_send_commands bus _
    | refine preservesBuf_bind ?_ (fun _ => ?_)

theorem preservesBuf_display_page (bus : Bus) (p : Nat) :
    preservesBuf (display_page bus p) := by
  unfold display_page
  refine preservesBuf_bind (preservesBuf_set_page bus p) (fun _ => ?_)
  refine preservesBuf_bind (preservesBuf_set_column bus 0) (fun _ => ?_)
  refine preservesBuf_bind preservesBuf_get_buffer (fun b => ?_)
  split
  · exact preservesBuf_send_data bus _
  · exact preservesBuf_pure ()

theorem preservesBuf_display_loop (bus : Bus) (ps : List Nat) :
    preservesBuf (display_loop bus ps) := by
  induction ps with
  | nil => exact preservesBuf_pure ()
  | cons p ps ih =>
    exact preservesBuf_bind (preservesBuf_display_page bus p) (fun _ => ih)

theorem preservesBuf_display (bus : Bus) : preservesBuf (display bus) :=
  preservesBuf_display_loop bus (List.range 8)

/-! ### `send_commands` traces -/

/-- On an all-success bus, `send_commands` sends every command in order. -/
theorem send_commands_busOk (cmds : List Nat) (b : Buffer) (n : Nat) :
    send_commands busOk cmds ⟨b, n⟩ =
      (Except.ok (), ⟨b, n + cmds.length⟩,
       cmds.map (fun c => Event.write [0x00, c])) := by
  induction cmds generalizing n with
  | nil => simp [send_commands, pure_apply]
  | cons c rest ih =>
    rw [send_commands, bind_apply, send_command,
      i2c_write_ok busOk _ b n rfl]
    simp [ih (n + 1)]
    omega

/-- If no write index of the run hits the failing index, `send_commands`
behaves as on an all-success bus. -/
theorem send_commands_failAt_miss (cmds : List Nat) (b : Buffer) (n k : Nat)
    (e : I2cError) (hk : k < n \/ n + cmds.length <= k) :
    send_commands (busFailAt k e) cmds ⟨b, n⟩ =
      (Except.ok (), ⟨b, n + cmds.length⟩,
       cmds.map (fun c => Event.write [0x00, c])) := by
  induction cmds generalizing n with
  | nil => simp [send_commands, pure_apply]
  | cons c rest ih =>
    have hne : (n : Nat) ≠ k := by
      rcases hk with h | h
      · omega
      · simp only [List.length_cons] at h; omega
    have hk2 : k < n + 1 \/ (n + 1) + rest.length <= k := by
      rcases hk with h | h
      · omega
      · simp only [List.length_cons] at h; omega
    rw [send_commands, bind_apply, send_command,
      i2c_write_ok _ _ b n (busFailAt_ne k e n hne)]
    simp [ih (n + 1) hk2]
    omega

/-- If the failing write index falls inside the run, `send_commands` sends the
commands up to and including the failing one and returns the error. -/
theorem send_commands_failAt_hit (cmds : List Nat) (b : Buffer) (n k : Nat)
    (e : I2cError) (hk1 : n <= k) (hk2 : k < n + cmds.length) :
    send_commands (busFailAt k e) cmds ⟨b, n⟩ =
      (Except.error e, ⟨b, k + 1⟩,
       (cmds.take (k - n + 1)).map (fun c => Event.write [0x00, c])) := by
  induction cmds generalizing n with
  | nil => simp only [List.length_nil] at hk2; omega
  | cons c rest ih =>
    rcases Nat.eq_or_lt_of_le hk1 with heq | hlt
    · subst heq
      rw [send_commands, bind_apply, send_command,
        i2c_write_err _ _ b n e (busFailAt_eq n e)]
      simp
    · have hk3 : k < (n + 1) + rest.length := by
        simp only [List.length_cons] at hk2; omega
      have htake : (c :: rest).take (k - n + 1)
          = c :: rest.take (k - (n + 1) + 1) := by
        have harith : k - n + 1 = (k - (n + 1) + 1) + 1 := by omega
        rw [harith, List.take_succ_cons]
      rw [send_commands, bind_apply, send_command,
        i2c_write_ok _ _ b n (busFailAt_ne k e n (by omega))]
      simp [ih (n + 1) hlt hk3, htake]

/-- Associativity of `bind` for the driver monad. -/
theorem bind_assoc2 (x : DriverM α) (f : α → DriverM β) (g : β → DriverM γ) :
    ((x >>= f) >>= g) = (x >>= fun a => f a >>= g) := by
  funext s
  rw [bind_apply, bind_apply, bind_apply]
  rcases x s with ⟨r, sa, ta⟩
  rcases r with e | a
  · rfl
  · dsimp only
    rcases f a sa with ⟨rb, sb, tb⟩
    rcases rb with e2 | v
    · rfl
    · dsimp only
      rcases g v sb with ⟨rc, sc, tc⟩
      dsimp only
      rw [List.append_assoc]

/-- Left identity of `pure` for the driver monad. -/
theorem pure_bind2 (a : α) (f : α → DriverM β) :
    ((pure a : DriverM α) >>= f) = f a := by
  funext s
  rw [bind_apply, pure_apply]
  rcases hf : f a s with ⟨r, sa, ta⟩
  simp [hf]

theorem send_commands_nil (bus : Bus) : send_commands bus [] = pure () := rfl

theorem send_commands_cons (bus : Bus) (c : Nat) (rest : List Nat) :
    send_commands bus (c :: rest)
      = send_command bus c >>= fun _ => send_commands bus rest := rfl

/-- `send_commands` over a concatenation is the two runs in sequence. -/
theorem send_commands_append (bus : Bus) (l1 l2 : List Nat) :
    send_commands bus (l1 ++ l2)
      = send_commands bus l1 >>= fun _ => send_commands bus l2 := by
  induction l1 with
  | nil => simp [send_commands_nil, pure_bind2]
  | cons c l1 ih =>
    simp only [List.cons_append, send_commands_cons, ih, bind_assoc2]

/-- `init` is: delay 20 ms, send the 25 `initCmds` in order, delay 100 ms. -/
theorem init_eq (bus : Bus) :
    init bus = delay_ms 20 >>= fun _ =>
      (send_commands bus initCmds >>= fun _ => delay_ms 100) := by
  have h : initCmds = [0xAE] ++ [0xD5, 0x80] ++ [0xA8, 0x3F] ++ [0xD3, 0x00]
      ++ [0x40] ++ [0x8D, 0x12] ++ [0x20, 0x02] ++ [0xA0] ++ [0xC8]
      ++ [0xDA, 0x12] ++ [0x81, 0x7F] ++ [0xD9, 0x22] ++ [0xDB, 0x20]
      ++ [0xA4] ++ [0xA6] ++ [0xAF] := by rfl
  rw [h]
  simp only [init, send_commands_append, send_commands_cons, send_commands_nil,
    bind_assoc2, pure_bind2]

/-- Expected full event trace of a successful `init`. -/
def initTraceOk : List Event :=
  Event.delayMs 20 :: initCmds.map (fun c => Event.write [0x00, c])
    ++ [Event.delayMs 100]

/-- On an all-success bus, `init` emits exactly `initTraceOk` and performs 25
writes. -/
theorem init_busOk (b : Buffer) (n : Nat) :
    init busOk ⟨b, n⟩ = (Except.ok (), ⟨b, n + 25⟩, initTraceOk) := by
  rw [init_eq, bind_apply]
  have hd : delay_ms 20 ⟨b, n⟩ = (Except.ok (), ⟨b, n⟩, [Event.delayMs 20])
    := rfl
  rw [hd]
  dsimp only
  rw [send_commands_busOk]
  dsimp only [delay_ms]
  simp [initTraceOk, initCmds]

/-- If the bus fails at relative write index `k < 25`, `init` sends exactly
the first `k + 1` commands, skips everything after, and returns the error. -/
theorem init_failAt (b : Buffer) (n k : Nat) (e : I2cError) (hk : k < 25) :
    init (busFailAt (n + k) e) ⟨b, n⟩ =
      (Except.error e, ⟨b, n + k + 1⟩,
       Event.delayMs 20 ::
         (initCmds.take (k + 1)).map (fun c => Event.write [0x00, c])) := by
  rw [init_eq, bind_apply]
  have hd : delay_ms 20 ⟨b, n⟩ = (Except.ok (), ⟨b, n⟩, [Event.delayMs 20])
    := rfl
  rw [hd]
  dsimp only
  rw [send_commands_failAt_hit initCmds b n (n + k) e (by omega)
      (by simp [initCmds]; omega)]
  simp

/-! ### `display` traces on the all-zero frame -/

theorem drop_rep (a : α) : ∀ (k m : Nat),
    (List.replicate m a).drop k = List.replicate (m - k) a
  | 0, m => by simp
  | k + 1, 0 => by simp
  | k + 1, m + 1 => by
    rw [List.replicate_succ, List.drop_succ_cons, drop_rep a k m,
      Nat.succ_sub_succ]

theorem take_rep (a : α) : ∀ (k m : Nat),
    (List.replicate m a).take k = List.replicate (min k m) a
  | 0, m => by simp
  | k + 1, 0 => by simp
  | k + 1, m + 1 => by
    rw [List.replicate_succ, List.take_succ_cons, take_rep a k m,
      Nat.succ_min_succ, List.replicate_succ]

/-- `send_data` of a 128-byte all-zero slice is one data transaction. -/
theorem send_data_busOk_rep (b : Buffer) (m : Nat) :
    send_data busOk (List.replicate 128 (0 : Nat)) ⟨b, m⟩ =
      (Except.ok (), ⟨b, m + 1⟩,
       [Event.write (0x40 :: List.replicate 128 0)]) := rfl

/-- One page of `display` over the all-zero frame on a successful bus. -/
theorem display_page_zero (p m : Nat) (hp : p < 8) :
    display_page busOk p ⟨zeroBuf, m⟩ =
      (Except.ok (), ⟨zeroBuf, m + 4⟩, pageTraceZero p) := by
  have h1 : set_page busOk p ⟨zeroBuf, m⟩ =
      (Except.ok (), ⟨zeroBuf, m + 1⟩, [Event.write [0x00, 0xB0 ||| p]]) := by
    rw [set_page, if_pos hp, send_command]
    exact i2c_write_ok _ _ _ _ rfl
  have h2 : set_column busOk 0 ⟨zeroBuf, m + 1⟩ =
      (Except.ok (), ⟨zeroBuf, m + 3⟩,
       [Event.write [0x00, 0x00], Event.write [0x00, 0x10]]) := rfl
  have h3 : ((zeroBuf.drop (p * 128)).take 128) = List.replicate 128 (0:Nat) := by
    rw [zeroBuf, drop_rep, take_rep]
    have hmin : min 128 (1024 - p * 128) = 128 := by omega
    rw [hmin]
  have hg : p * 128 + 128 ≤ zeroBuf.length := by
    simp [zeroBuf]
    omega
  rw [display_page, bind_apply, h1]
  dsimp only
  rw [h2]
  dsimp only [get_buffer]
  rw [if_pos hg, h3, send_data_busOk_rep]
  simp [pageTraceZero]

/-- `display_loop` over in-range pages of the all-zero frame. -/
theorem display_loop_zero (ps : List Nat) (m : Nat) (hps : ∀ p ∈ ps, p < 8) :
    display_loop busOk ps ⟨zeroBuf, m⟩ =
      (Except.ok (), ⟨zeroBuf, m + 4 * ps.length⟩,
       ps.foldr (fun p t => pageTraceZero p ++ t) []) := by
  induction ps generalizing m with
  | nil => simp [display_loop, pure_apply]
  | cons p ps ih =>
    rw [display_loop, bind_apply, display_page_zero p m (hps p (by simp))]
    dsimp only
    rw [ih (m + 4) (fun q hq => hps q (by simp [hq]))]
    simp
    omega

/-- A full `display` of the all-zero frame: 32 writes, trace
`displayZeroTrace`, success. -/
theorem display_zero (m : Nat) :
    display busOk ⟨zeroBuf, m⟩ =
      (Except.ok (), ⟨zeroBuf, m + 32⟩, displayZeroTrace) := by
  have h := display_loop_zero (List.range 8) m
    (by intro p hp; exact List.mem_range.mp hp)
  simpa [display, displayZeroTrace] using h

/-- `clear_buffer` of any 1024-byte frame is the all-zero frame. -/
theorem clear_buffer_zero (b : Buffer) (hb : b.length = 1024) :
    clear_buffer b = zeroBuf := by
  rw [clear_buffer, zeroBuf, ← hb]
  simp [List.map_const']

/-- `clear` on a successful bus: zero the frame, then one full flush. -/
theorem clear_busOk (b : Buffer) (n : Nat) (hb : b.length = 1024) :
    clear busOk ⟨b, n⟩ =
      (Except.ok (), ⟨zeroBuf, n + 32⟩, displayZeroTrace) := by
  rw [clear, bind_apply]
  have hm : modify_buffer clear_buffer ⟨b, n⟩ =
      (Except.ok (), ⟨clear_buffer b, n⟩, []) := rfl
  rw [hm]
  dsimp only
  rw [clear_buffer_zero b hb, display_zero]
  simp

/-! ### Buffer access lemmas -/

theorem getD_mem_of_lt : ∀ (l : List Nat) (i : Nat), i < l.length →
    l.getD i 0 ∈ l
  | a :: l, 0, _ => by simp
  | a :: l, i + 1, h => by
    rw [List.getD_cons_succ]
    exact List.mem_cons_of_mem a (getD_mem_of_lt l i (by simpa using h))

theorem getD_set_self2 (l : List Nat) (i v : Nat) (h : i < l.length) :
    (l.set i v).getD i 0 = v := by
  simp [List.getD_eq_getElem?_getD, List.getElem?_set_self h]

theorem getD_set_ne2 (l : List Nat) (i j v : Nat) (h : i ≠ j) :
    (l.set i v).getD j 0 = l.getD j 0 := by
  simp [List.getD_eq_getElem?_getD, List.getElem?_set_ne h]

theorem set_getD_self (l : List Nat) (i : Nat) (h : i < l.length) :
    l.set i (l.getD i 0) = l := by
  apply List.ext_getElem?
  intro n
  by_cases hn : n = i
  · subst hn
    rw [List.getElem?_set_self h]
    simp [List.getD_eq_getElem?_getD, List.getElem?_eq_getElem h]
  · rw [List.getElem?_set_ne (fun hc => hn hc.symm)]

theorem getD_lt_of_byteBuf (b : Buffer) (i : Nat) (hbyte : byteBuf b)
    (h : i < b.length) : b.getD i 0 < 256 :=
  hbyte _ (getD_mem_of_lt b i h)

theorem byteBuf_zeroBuf : byteBuf zeroBuf := by
  intro v hv
  rw [zeroBuf] at hv
  rw [List.eq_of_mem_replicate hv]
  omega

/-! ### Bit-level lemmas about the byte updates of `set_pixel` -/

theorem pixel_index_lt (x y : Nat) (hx : x < 128) (hy : y < 64) :
    pixel_index x y < 1024 := by
  unfold pixel_index
  omega

/-- In bounds, `set_pixel` is a single `List.set` at `pixel_index x y`. -/
theorem set_pixel_in (x y : Nat) (isOn : Bool) (b : Buffer)
    (hx : x < 128) (hy : y < 64) (hb : b.length = 1024) :
    set_pixel x y isOn b = b.set (pixel_index x y)
      (if isOn then b.getD (pixel_index x y) 0 ||| 2 ^ (y % 8)
       else b.getD (pixel_index x y) 0 &&& (255 ^^^ 2 ^ (y % 8))) := by
  have hlt : pixel_index x y < b.length := hb ▸ pixel_index_lt x y hx hy
  rw [set_pixel, if_neg (by omega : ¬(x ≥ 128 ∨ y ≥ 64))]
  dsimp only
  rw [if_pos hlt, Nat.one_shiftLeft]
  cases isOn <;> simp

theorem testBit_or_bit (v bit j : Nat) :
    (v ||| 2 ^ bit).testBit j = (v.testBit j || decide (bit = j)) := by
  rw [Nat.testBit_or, Nat.testBit_two_pow]

theorem testBit_and_mask (v bit j : Nat) (hv : v < 256) (hbit : bit < 8) :
    (v &&& (255 ^^^ 2 ^ bit)).testBit j = (v.testBit j && !decide (bit = j)) := by
  have h255 : (255 : Nat) = 2 ^ 8 - 1 := by norm_num
  rw [Nat.testBit_and, Nat.testBit_xor, h255, Nat.testBit_two_pow_sub_one,
    Nat.testBit_two_pow]
  by_cases hj : j < 8
  · simp [hj]
  · have hvj : v.testBit j = false := Nat.testBit_lt_two_pow (by
      calc v < 256 := hv
        _ = 2 ^ 8 := by norm_num
        _ ≤ 2 ^ j := Nat.pow_le_pow_right (by omega) (by omega))
    have hbj : ¬(bit = j) := by omega
    simp [hj, hvj, hbj]

/-! ### Claim theorems -/

/-- Claim C1: for every in-bounds coordinate (x < 128, y < 64) and boolean,
`set_pixel` sets (if on) or clears (if off) exactly bit `y % 8` of buffer byte
`(y / 8) * 128 + x`, leaving every other byte and every other bit of that byte
unchanged; in particular (0,0) maps to byte 0 bit 0, (127,63) to byte 1023
bit 7, and (5,9) to byte 133 bit 1. -/
theorem set_pixel_addressing (x y : Nat) (isOn : Bool) (b : Buffer)
    (hx : x < 128) (hy : y < 64) (hb : b.length = 1024) (hbyte : byteBuf b) :
    (∀ i, i ≠ pixel_index x y →
      (set_pixel x y isOn b).getD i 0 = b.getD i 0) ∧
    ((set_pixel x y isOn b).getD (pixel_index x y) 0).testBit (y % 8) = isOn ∧
    (∀ j, j ≠ y % 8 →
      ((set_pixel x y isOn b).getD (pixel_index x y) 0).testBit j
        = (b.getD (pixel_index x y) 0).testBit j) ∧
    pixel_index 0 0 = 0 ∧ (0 : Nat) % 8 = 0 ∧
    pixel_index 127 63 = 1023 ∧ (63 : Nat) % 8 = 7 ∧
    pixel_index 5 9 = 133 ∧ (9 : Nat) % 8 = 1 := by
  have hlt : pixel_index x y < b.length := hb ▸ pixel_index_lt x y hx hy
  have hv : b.getD (pixel_index x y) 0 < 256 :=
    getD_lt_of_byteBuf b _ hbyte hlt
  have hm8 : y % 8 < 8 := Nat.mod_lt y (by omega)
  rw [set_pixel_in x y isOn b hx hy hb]
  refine ⟨?_, ?_, ?_, rfl, rfl, rfl, rfl, rfl, rfl⟩
  · intro i hi
    exact getD_set_ne2 _ _ _ _ (fun hc => hi hc.symm)
  · rw [getD_set_self2 _ _ _ hlt]
    cases isOn
    · rw [if_neg (by simp), testBit_and_mask _ _ _ hv hm8]
      simp
    · rw [if_pos rfl, testBit_or_bit]
      simp
  · intro j hj
    rw [getD_set_self2 _ _ _ hlt]
    have hne : ¬(y % 8 = j) := fun hc => hj hc.symm
    cases isOn
    · rw [if_neg (by simp), testBit_and_mask _ _ _ hv hm8]
      simp [hne]
    · rw [if_pos rfl, testBit_or_bit]
      simp [hne]

theorem set_pixel_addressing_witness :
    ((set_pixel 5 9 true zeroBuf).getD (pixel_index 5 9) 0).testBit (9 % 8)
      = true :=
  (set_pixel_addressing 5 9 true zeroBuf (by omega) (by omega)
    (by simp [zeroBuf]) byteBuf_zeroBuf).2.1

theorem set_pixel_oob (x y : Nat) (isOn : Bool) (b : Buffer)
    (h : x ≥ 128 ∨ y ≥ 64) : set_pixel x y isOn b = b := by
  rw [set_pixel, if_pos h]

/-- Claim C3: for every coordinate with x ≥ 128 or y ≥ 64 and every boolean,
`set_pixel` leaves the framebuffer entirely unchanged (a silent no-op; the
function is total and signals nothing). -/
theorem set_pixel_out_of_bounds (x y : Nat) (isOn : Bool) (b : Buffer)
    (h : x ≥ 128 ∨ y ≥ 64) : set_pixel x y isOn b = b :=
  set_pixel_oob x y isOn b h

theorem set_pixel_out_of_bounds_witness :
    set_pixel 128 0 true zeroBuf = zeroBuf ∧
    set_pixel 0 64 false zeroBuf = zeroBuf ∧
    set_pixel 255 255 true zeroBuf = zeroBuf :=
  ⟨set_pixel_out_of_bounds 128 0 true zeroBuf (Or.inl (by omega)),
   set_pixel_out_of_bounds 0 64 false zeroBuf (Or.inr (by omega)),
   set_pixel_out_of_bounds 255 255 true zeroBuf (Or.inl (by omega))⟩

theorem clear_getD (b : Buffer) (i : Nat) : (clear_buffer b).getD i 0 = 0 := by
  rw [clear_buffer, List.getD_eq_getElem?_getD, List.getElem?_map]
  cases h : b[i]? <;> simp

/-- Claim C9: after `clear_buffer` every byte of the framebuffer reads 0, no
matter which `set_pixel` calls preceded it, and a second `clear_buffer` leaves
the all-zero buffer unchanged (idempotent reset). -/
theorem clear_buffer_resets (b : Buffer) (ops : List (Nat × Nat × Bool))
    (i : Nat) :
    (clear_buffer
      (ops.foldl (fun acc o => set_pixel o.1 o.2.1 o.2.2 acc) b)).getD i 0
      = 0 ∧
    clear_buffer (clear_buffer b) = clear_buffer b := by
  constructor
  · exact clear_getD _ i
  · simp [clear_buffer, List.map_map]

/-- Setting an already-clear bit and then clearing it restores the byte. -/
theorem or_and_mask_eq (v bit : Nat) (hv : v < 256) (hbit : bit < 8)
    (hoff : v.testBit bit = false) :
    (v ||| 2 ^ bit) &&& (255 ^^^ 2 ^ bit) = v := by
  have hor : v ||| 2 ^ bit < 256 := by
    have h256 : (256 : Nat) = 2 ^ 8 := by norm_num
    rw [h256]
    apply Nat.lt_pow_two_of_testBit
    intro i hi
    rw [testBit_or_bit]
    have hv' : v.testBit i = false := Nat.testBit_lt_two_pow (by
      calc v < 256 := hv
        _ = 2 ^ 8 := by norm_num
        _ ≤ 2 ^ i := Nat.pow_le_pow_right (by omega) hi)
    have : ¬(bit = i) := by omega
    simp [hv', this]
  apply Nat.eq_of_testBit_eq
  intro j
  rw [testBit_and_mask _ _ _ hor hbit, testBit_or_bit]
  by_cases hbj : bit = j
  · subst hbj
    simp [hoff]
  · simp [hbj]

/-- Claim C6 (amended): for in-bounds (x, y), `set_pixel(x,y,true)` followed by
`set_pixel(x,y,false)` restores the buffer exactly **provided pixel (x,y) was
initially off**; if the pixel was initially on, the pair of calls clears it,
so the original byte is not restored (see the counterexample). -/
theorem set_unset_restores (x y : Nat) (b : Buffer)
    (hx : x < 128) (hy : y < 64) (hb : b.length = 1024) (hbyte : byteBuf b)
    (hoff : pixelOn b x y = false) :
    set_pixel x y false (set_pixel x y true b) = b := by
  have hlt : pixel_index x y < b.length := hb ▸ pixel_index_lt x y hx hy
  have hv : b.getD (pixel_index x y) 0 < 256 :=
    getD_lt_of_byteBuf b _ hbyte hlt
  have hm8 : y % 8 < 8 := Nat.mod_lt y (by omega)
  rw [set_pixel_in x y true b hx hy hb, if_pos rfl]
  rw [set_pixel_in x y false _ hx hy (by rw [List.length_set]; exact hb),
    if_neg (by simp)]
  rw [getD_set_self2 _ _ _ hlt, List.set_set]
  rw [or_and_mask_eq _ _ hv hm8 (by rw [← pixelOn]; exact hoff)]
  exact set_getD_self b _ hlt

theorem set_unset_restores_witness :
    set_pixel 5 9 false (set_pixel 5 9 true zeroBuf) = zeroBuf :=
  set_unset_restores 5 9 zeroBuf (by omega) (by omega) (by simp [zeroBuf])
    byteBuf_zeroBuf (by decide)

/-- Claim C6 is false as stated: on a frame whose byte 0 is 1 (pixel (0,0)
on), `set_pixel(0,0,true)` then `set_pixel(0,0,false)` yields byte 0 = 0, not
the original buffer. -/
theorem set_unset_counterexample :
    set_pixel 0 0 false (set_pixel 0 0 true (1 :: List.replicate 1023 0))
      ≠ 1 :: List.replicate 1023 0 := by
  intro h
  have h0 : (set_pixel 0 0 false (set_pixel 0 0 true
      (1 :: List.replicate 1023 0))).getD 0 0 = 1 := by rw [h]; rfl
  exact absurd h0 (by decide)

/-- Claim C4: `send_data` on an empty payload performs zero bus writes and
returns success; on any non-empty payload it performs exactly one bus write of
`[0x40] ++ data[0 .. min(len, 128)]` (a 200-byte payload is truncated to its
first 128 bytes, never split into a second transaction). -/
theorem send_data_spec (bus : Bus) (data : List Nat) (s : DState)
    (hne : data ≠ []) :
    (∀ s2 : DState, send_data bus [] s2 = (Except.ok (), s2, [])) ∧
    (send_data bus data s).2.2 = [Event.write (0x40 :: data.take 128)] ∧
    (send_data bus data s).2.1 = ⟨s.buffer, s.writes + 1⟩ := by
  have hni : ¬(data.isEmpty = true) := by
    simpa [List.isEmpty_iff] using hne
  refine ⟨fun s2 => rfl, ?_, ?_⟩
  · rw [send_data, if_neg hni]
    rfl
  · rw [send_data, if_neg hni]
    rfl

theorem send_data_spec_witness :
    (send_data busOk (List.replicate 200 7) ⟨zeroBuf, 0⟩).2.2
      = [Event.write (0x40 :: List.replicate 128 7)] := by
  have h := (send_data_spec busOk (List.replicate 200 7) ⟨zeroBuf, 0⟩
    (by simp)).2.1
  rw [h, take_rep]
  norm_num

/-- Claim C7: `send_commands` sends each command of its input in order, each
as its own 2-byte transaction `[0x00, cmd]`; on the first transport failure
(at relative position k) it sends exactly the first k+1 commands, skips the
rest, and returns that failure unchanged; if all succeed it returns success. -/
theorem send_commands_spec (cmds : List Nat) (b : Buffer) (n k : Nat)
    (e : I2cError) (hk : k < cmds.length) :
    send_commands busOk cmds ⟨b, n⟩ =
      (Except.ok (), ⟨b, n + cmds.length⟩,
       cmds.map (fun c => Event.write [0x00, c])) ∧
    send_commands (busFailAt (n + k) e) cmds ⟨b, n⟩ =
      (Except.error e, ⟨b, n + k + 1⟩,
       (cmds.take (k + 1)).map (fun c => Event.write [0x00, c])) := by
  constructor
  · exact send_commands_busOk cmds b n
  · have h := send_commands_failAt_hit cmds b n (n + k) e (by omega) (by omega)
    simpa using h

theorem send_commands_spec_witness :
    send_commands busOk [0xA1, 0xB2, 0xC3] ⟨zeroBuf, 0⟩ =
      (Except.ok (), ⟨zeroBuf, 0 + [0xA1, 0xB2, 0xC3].length⟩,
       [0xA1, 0xB2, 0xC3].map (fun c => Event.write [0x00, c])) ∧
    send_commands (busFailAt (0 + 1) I2cError.nack) [0xA1, 0xB2, 0xC3]
        ⟨zeroBuf, 0⟩ =
      (Except.error I2cError.nack, ⟨zeroBuf, 0 + 1 + 1⟩,
       ([0xA1, 0xB2, 0xC3].take (1 + 1)).map (fun c => Event.write [0x00, c]))
  := send_commands_spec [0xA1, 0xB2, 0xC3] zeroBuf 0 1 I2cError.nack
      (by simp)

/-- Claim C5: `init` performs, in order, a 20 ms delay, the fixed command
sequence 0xAE; 0xD5 0x80; 0xA8 0x3F; 0xD3 0x00; 0x40; 0x8D 0x12; 0x20 0x02;
0xA0; 0xC8; 0xDA 0x12; 0x81 0x7F; 0xD9 0x22; 0xDB 0x20; 0xA4; 0xA6; 0xAF
(each byte its own `[0x00, cmd]` transaction), then a 100 ms delay; on the
first command failure it stops immediately, sends nothing further (no later
command, no trailing delay), and returns that transport error. -/
theorem init_spec (b : Buffer) (n k : Nat) (e : I2cError) (hk : k < 25) :
    init busOk ⟨b, n⟩ = (Except.ok (), ⟨b, n + 25⟩, initTraceOk) ∧
    initTraceOk = Event.delayMs 20 ::
      ([0xAE, 0xD5, 0x80, 0xA8, 0x3F, 0xD3, 0x00, 0x40, 0x8D, 0x12, 0x20,
        0x02, 0xA0, 0xC8, 0xDA, 0x12, 0x81, 0x7F, 0xD9, 0x22, 0xDB, 0x20,
        0xA4, 0xA6, 0xAF].map (fun c => Event.write [0x00, c]))
      ++ [Event.delayMs 100] ∧
    init (busFailAt (n + k) e) ⟨b, n⟩ =
      (Except.error e, ⟨b, n + k + 1⟩,
       Event.delayMs 20 ::
         (initCmds.take (k + 1)).map (fun c => Event.write [0x00, c])) :=
  ⟨init_busOk b n, rfl, init_failAt b n k e hk⟩

theorem init_spec_witness :
    init (busFailAt (0 + 3) I2cError.timeout) ⟨zeroBuf, 0⟩ =
      (Except.error I2cError.timeout, ⟨zeroBuf, 0 + 3 + 1⟩,
       Event.delayMs 20 ::
         (initCmds.take (3 + 1)).map (fun c => Event.write [0x00, c])) :=
  (init_spec zeroBuf 0 3 I2cError.timeout (by omega)).2.2

/-- Claim C2: after a successful `init` and a `clear()`, the framebuffer is
all zero, and a `display()` then succeeds and issues, page by page for pages
0..7 in ascending order, exactly one set-page command (0xB0 | page), the
column-address command pair (0x00 then 0x10), and one data transaction of the
page's 128 (zero) buffer bytes — and nothing else. -/
theorem display_after_clear (b : Buffer) (n : Nat) (hb : b.length = 1024) :
    (((init busOk >>= fun _ => clear busOk) ⟨b, n⟩).2.1).buffer = zeroBuf ∧
    (∀ m : Nat, display busOk ⟨zeroBuf, m⟩ =
      (Except.ok (), ⟨zeroBuf, m + 32⟩, displayZeroTrace)) ∧
    displayZeroTrace =
      pageTraceZero 0 ++ pageTraceZero 1 ++ pageTraceZero 2 ++ pageTraceZero 3
        ++ pageTraceZero 4 ++ pageTraceZero 5 ++ pageTraceZero 6
        ++ pageTraceZero 7 := by
  refine ⟨?_, fun m => display_zero m, ?_⟩
  · rw [bind_apply, init_busOk b n]
    dsimp only
    rw [clear_busOk b (n + 25) hb]
  · simp [displayZeroTrace, pageTraceZero, List.range_succ]

theorem display_after_clear_witness :
    (((init busOk >>= fun _ => clear busOk) ⟨zeroBuf, 0⟩).2.1).buffer
      = zeroBuf :=
  (display_after_clear zeroBuf 0 (by simp [zeroBuf])).1

/-! ### `draw_text_centered` -/

theorem wrap32_eq_self (z : Int) (h1 : -(2 ^ 31) ≤ z) (h2 : z < 2 ^ 31) :
    wrap32 z = z := by
  rw [wrap32, Int.emod_eq_of_lt (by omega) (by omega)]
  omega

/-- Claim C10 (amended): whenever `len(text) * glyph_width` does not overflow
`i32` (true of every realistic text), `draw_text_centered` computes
`x = (128 - len * glyph_width) / 2` with truncating integer division (possibly
negative) and delegates to `draw_text_small` at that x and the given y; in
particular for a 2-character text with glyph width 6 it computes x = 58. For
overflowing products the `i32` arithmetic wraps and the formula fails (see the
counterexample). -/
theorem draw_text_centered_spec (f : Int → Int → α) (len : Nat) (y fw : Int)
    (h1 : (len : Int) < 2 ^ 31) (h2 : -(2 ^ 31) + 129 ≤ (len : Int) * fw)
    (h3 : (len : Int) * fw < 2 ^ 31) :
    draw_text_centered f len y fw
      = f (Int.tdiv (128 - (len : Int) * fw) 2) y ∧
    draw_text_centered f 2 y 6 = f 58 y := by
  constructor
  · have hlen0 : (0 : Int) ≤ (len : Int) := Int.natCast_nonneg len
    simp only [draw_text_centered]
    rw [wrap32_eq_self (len : Int) (by omega) h1,
      wrap32_eq_self ((len : Int) * fw) (by omega) h3,
      wrap32_eq_self (128 - (len : Int) * fw) (by omega) (by omega)]
  · have hx : Int.tdiv (wrap32 (128 - wrap32 (wrap32 ((2 : Nat) : Int) * 6)))
        2 = 58 := by decide
    simp only [draw_text_centered]
    rw [hx]

theorem draw_text_centered_spec_witness :
    draw_text_centered (fun a b => (a, b)) 2 10 6
      = (Int.tdiv (128 - ((2 : Nat) : Int) * 6) 2, 10) :=
  (draw_text_centered_spec (fun a b => (a, b)) 2 10 6 (by decide) (by decide)
    (by decide)).1

/-- Claim C10 is false as stated for a text/glyph-width pair whose pixel width
overflows `i32`: for `len(text) = 2^26` and glyph width 64 the product wraps
to 0, so the code delegates at x = 64, not at the claimed
`(128 - 2^26 * 64) / 2 = -2147483584`. -/
theorem draw_text_centered_counterexample :
    draw_text_centered (fun a b => (a, b)) 67108864 0 64 = ((64 : Int), (0 : Int)) ∧
    Int.tdiv (128 - ((67108864 : Nat) : Int) * 64) 2 = -2147483584 ∧
    (64 : Int) ≠ -2147483584 := by
  refine ⟨?_, by decide, by decide⟩
  have hx : Int.tdiv
      (wrap32 (128 - wrap32 (wrap32 ((67108864 : Nat) : Int) * 64))) 2
      = 64 := by decide
  simp only [draw_text_centered]
  rw [hx]

/-! ### Line drawing (with u8 wrap-around semantics) -/

/-- Effect of an in-range `set_pixel _ _ true` on an individual pixel read. -/
theorem pixelOn_set_pixel_true (cx cy a r : Nat) (b : Buffer)
    (ha : a < 128) (hr : r < 64) (hb : b.length = 1024) :
    pixelOn (set_pixel cx cy true b) a r
      = (pixelOn b a r || (decide (a = cx) && decide (r = cy))) := by
  by_cases hc : cx ≥ 128 ∨ cy ≥ 64
  · rw [set_pixel_oob _ _ _ _ hc]
    rcases hc with h | h
    · have hne : ¬(a = cx) := by omega
      simp [hne]
    · have hne : ¬(r = cy) := by omega
      simp [hne]
  · push_neg at hc
    obtain ⟨hcx, hcy⟩ := hc
    rw [set_pixel_in cx cy true b hcx hcy hb, if_pos rfl]
    rw [pixelOn, pixelOn]
    by_cases hidx : pixel_index a r = pixel_index cx cy
    · rw [hidx, getD_set_self2 _ _ _ (hb ▸ pixel_index_lt cx cy hcx hcy)]
      rw [testBit_or_bit]
      have hac : a = cx ∧ r / 8 = cy / 8 := by
        unfold pixel_index at hidx
        omega
      obtain ⟨hac1, hdiv⟩ := hac
      have hiff : (cy % 8 = r % 8) ↔ (r = cy) := by omega
      have h1 : decide (a = cx) = true := by simp [hac1]
      rw [h1, Bool.true_and, decide_eq_decide.mpr hiff]
    · rw [getD_set_ne2 _ _ _ _ (fun hc2 => hidx hc2.symm)]
      have hne : ¬(a = cx ∧ r = cy) := by
        rintro ⟨rfl, rfl⟩
        exact hidx rfl
      have h2 : (decide (a = cx) && decide (r = cy)) = false := by
        rcases Decidable.em (a = cx) with h | h
        · rcases Decidable.em (r = cy) with h3 | h3
          · exact absurd ⟨h, h3⟩ hne
          · simp [h3]
        · simp [h]
      rw [h2, Bool.or_false]

theorem set_pixel_length (x y : Nat) (isOn : Bool) (b : Buffer) :
    (set_pixel x y isOn b).length = b.length := by
  rw [set_pixel]
  split
  · rfl
  · dsimp only
    split
    · split <;> simp
    · rfl

theorem hline_succ (x y w : Nat) (b : Buffer) :
    hline_pixels x y (w + 1) b =
      (if (x + w) % 256 < 128
       then set_pixel ((x + w) % 256) y true (hline_pixels x y w b)
       else hline_pixels x y w b) := by
  rw [hline_pixels, hline_pixels, List.range_succ, List.foldl_append,
    List.foldl_cons, List.foldl_nil]

theorem vline_succ (x y h : Nat) (b : Buffer) :
    vline_pixels x y (h + 1) b =
      (if (y + h) % 256 < 64
       then set_pixel x ((y + h) % 256) true (vline_pixels x y h b)
       else vline_pixels x y h b) := by
  rw [vline_pixels, vline_pixels, List.range_succ, List.foldl_append,
    List.foldl_cons, List.foldl_nil]

theorem hline_length (x y : Nat) : ∀ (w : Nat) (b : Buffer),
    (hline_pixels x y w b).length = b.length
  | 0, b => rfl
  | w + 1, b => by
    rw [hline_succ]
    split
    · rw [set_pixel_length, hline_length x y w b]
    · exact hline_length x y w b

theorem vline_length (x y : Nat) : ∀ (h : Nat) (b : Buffer),
    (vline_pixels x y h b).length = b.length
  | 0, b => rfl
  | h + 1, b => by
    rw [vline_succ]
    split
    · rw [set_pixel_length, vline_length x y h b]
    · exact vline_length x y h b

/-- Exact pixel-level effect of the `draw_horizontal_line` loop. -/
theorem hline_pixelOn (x y a r : Nat) (ha : a < 128) (hr : r < 64) :
    ∀ (w : Nat) (b : Buffer), b.length = 1024 →
      (pixelOn (hline_pixels x y w b) a r = true ↔
        (pixelOn b a r = true ∨ (r = y ∧ ∃ i, i < w ∧ (x + i) % 256 = a)))
  | 0, b, hb => by
    simp [hline_pixels]
  | w + 1, b, hb => by
    rw [hline_succ]
    have ih := hline_pixelOn x y a r ha hr w b hb
    by_cases hcond : (x + w) % 256 < 128
    · rw [if_pos hcond,
        pixelOn_set_pixel_true _ _ _ _ _ ha hr
          (by rw [hline_length]; exact hb)]
      simp only [Bool.or_eq_true, Bool.and_eq_true, decide_eq_true_eq]
      rw [ih]
      constructor
      · rintro ((h | ⟨hry, i, hiw, hia⟩) | ⟨hac, hry⟩)
        · exact Or.inl h
        · exact Or.inr ⟨hry, i, by omega, hia⟩
        · exact Or.inr ⟨hry, w, by omega, hac.symm⟩
      · rintro (h | ⟨hry, i, hiw, hia⟩)
        · exact Or.inl (Or.inl h)
        · rcases Nat.lt_succ_iff_lt_or_eq.mp hiw with h2 | h2
          · exact Or.inl (Or.inr ⟨hry, i, h2, hia⟩)
          · subst h2
            exact Or.inr ⟨hia.symm, hry⟩
    · rw [if_neg hcond, ih]
      constructor
      · rintro (h | ⟨hry, i, hiw, hia⟩)
        · exact Or.inl h
        · exact Or.inr ⟨hry, i, by omega, hia⟩
      · rintro (h | ⟨hry, i, hiw, hia⟩)
        · exact Or.inl h
        · rcases Nat.lt_succ_iff_lt_or_eq.mp hiw with h2 | h2
          · exact Or.inr ⟨hry, i, h2, hia⟩
          · subst h2
            exact absurd hia (by omega)

/-- Exact pixel-level effect of the `draw_vertical_line` loop. -/
theorem vline_pixelOn (x y a r : Nat) (ha : a < 128) (hr : r < 64) :
    ∀ (h : Nat) (b : Buffer), b.length = 1024 →
      (pixelOn (vline_pixels x y h b) a r = true ↔
        (pixelOn b a r = true ∨ (a = x ∧ ∃ i, i < h ∧ (y + i) % 256 = r)))
  | 0, b, hb => by
    simp [vline_pixels]
  | h + 1, b, hb => by
    rw [vline_succ]
    have ih := vline_pixelOn x y a r ha hr h b hb
    by_cases hcond : (y + h) % 256 < 64
    · rw [if_pos hcond,
        pixelOn_set_pixel_true _ _ _ _ _ ha hr
          (by rw [vline_length]; exact hb)]
      simp only [Bool.or_eq_true, Bool.and_eq_true, decide_eq_true_eq]
      rw [ih]
      constructor
      · rintro ((h2 | ⟨hax, i, hih, hir⟩) | ⟨hax, hrc⟩)
        · exact Or.inl h2
        · exact Or.inr ⟨hax, i, by omega, hir⟩
        · exact Or.inr ⟨hax, h, by omega, hrc.symm⟩
      · rintro (h2 | ⟨hax, i, hih, hir⟩)
        · exact Or.inl (Or.inl h2)
        · rcases Nat.lt_succ_iff_lt_or_eq.mp hih with h3 | h3
          · exact Or.inl (Or.inr ⟨hax, i, h3, hir⟩)
          · subst h3
            exact Or.inr ⟨hax, hir.symm⟩
    · rw [if_neg hcond, ih]
      constructor
      · rintro (h2 | ⟨hax, i, hih, hir⟩)
        · exact Or.inl h2
        · exact Or.inr ⟨hax, i, by omega, hir⟩
      · rintro (h2 | ⟨hax, i, hih, hir⟩)
        · exact Or.inl h2
        · rcases Nat.lt_succ_iff_lt_or_eq.mp hih with h3 | h3
          · exact Or.inr ⟨hax, i, h3, hir⟩
          · subst h3
            exact absurd hir (by omega)

/-- `draw_horizontal_line` is the pixel loop followed by a full flush. -/
theorem draw_horizontal_line_eq (bus : Bus) (x y w : Nat) (s : DState) :
    draw_horizontal_line bus x y w s
      = display bus ⟨hline_pixels x y w s.buffer, s.writes⟩ := by
  rw [draw_horizontal_line, bind_apply]
  have hm : modify_buffer (hline_pixels x y w) s
      = (Except.ok (), ⟨hline_pixels x y w s.buffer, s.writes⟩, []) := rfl
  rw [hm]
  dsimp only
  rcases hd : display bus ⟨hline_pixels x y w s.buffer, s.writes⟩
    with ⟨r, s2, t⟩
  simp

/-- `draw_vertical_line` is the pixel loop followed by a full flush. -/
theorem draw_vertical_line_eq (bus : Bus) (x y h : Nat) (s : DState) :
    draw_vertical_line bus x y h s
      = display bus ⟨vline_pixels x y h s.buffer, s.writes⟩ := by
  rw [draw_vertical_line, bind_apply]
  have hm : modify_buffer (vline_pixels x y h) s
      = (Except.ok (), ⟨vline_pixels x y h s.buffer, s.writes⟩, []) := rfl
  rw [hm]
  dsimp only
  rcases hd : display bus ⟨vline_pixels x y h s.buffer, s.writes⟩
    with ⟨r, s2, t⟩
  simp

/-- Claim C8 (amended): `draw_horizontal_line(x, y, width)` sets exactly the
pixels `((x+i) mod 256, y)` for `i < width` whose wrapped column is `< 128`
(Rust `u8` addition wraps), touching no other pixel, then flushes; likewise
`draw_vertical_line` sets exactly `(x, (y+i) mod 256)` with wrapped row `< 64`
then flushes. When `x + width ≤ 256` (resp. `y + length ≤ 256`) the wrap is
the identity and this is the clipping behaviour the claim states; when the
`u8` sum overflows, wrapped columns/rows below the bound are set, so the
original claim fails (see the counterexample). -/
theorem draw_line_clipping (bus : Bus) (s : DState) (x y w h a r : Nat)
    (b : Buffer) (ha : a < 128) (hr : r < 64) (hb : b.length = 1024) :
    (pixelOn (hline_pixels x y w b) a r = true ↔
      (pixelOn b a r = true ∨ (r = y ∧ ∃ i, i < w ∧ (x + i) % 256 = a))) ∧
    (pixelOn (vline_pixels x y h b) a r = true ↔
      (pixelOn b a r = true ∨ (a = x ∧ ∃ i, i < h ∧ (y + i) % 256 = r))) ∧
    draw_horizontal_line bus x y w s
      = display bus ⟨hline_pixels x y w s.buffer, s.writes⟩ ∧
    draw_vertical_line bus x y h s
      = display bus ⟨vline_pixels x y h s.buffer, s.writes⟩ :=
  ⟨hline_pixelOn x y a r ha hr w b hb,
   vline_pixelOn x y a r ha hr h b hb,
   draw_horizontal_line_eq bus x y w s,
   draw_vertical_line_eq bus x y h s⟩

theorem draw_line_clipping_witness :
    (pixelOn (hline_pixels 3 5 4 zeroBuf) 3 5 = true ↔
      (pixelOn zeroBuf 3 5 = true ∨
        (5 = 5 ∧ ∃ i, i < 4 ∧ (3 + i) % 256 = 3))) ∧
    (pixelOn (vline_pixels 3 5 4 zeroBuf) 3 5 = true ↔
      (pixelOn zeroBuf 3 5 = true ∨
        (3 = 3 ∧ ∃ i, i < 4 ∧ (5 + i) % 256 = 5))) ∧
    draw_horizontal_line busOk 3 5 4 ⟨zeroBuf, 0⟩
      = display busOk ⟨hline_pixels 3 5 4 zeroBuf, 0⟩ ∧
    draw_vertical_line busOk 3 5 4 ⟨zeroBuf, 0⟩
      = display busOk ⟨vline_pixels 3 5 4 zeroBuf, 0⟩ :=
  draw_line_clipping busOk ⟨zeroBuf, 0⟩ 3 5 4 4 3 5 zeroBuf (by omega)
    (by omega) (by simp [zeroBuf])

/-- Claim C8 is false as stated: `draw_horizontal_line(255, 0, 2)` has no
in-bounds span pixel (columns 255 and 256 are both ≥ 128), so by the claim the
frame may not change — but the `u8` sum 255 + 1 wraps to column 0, the code
turns pixel (0, 0) on, and that frame is what gets flushed. -/
theorem draw_line_wrap_counterexample :
    draw_horizontal_line busOk 255 0 2 ⟨zeroBuf, 0⟩
      = display busOk ⟨hline_pixels 255 0 2 zeroBuf, 0⟩ ∧
    pixelOn (hline_pixels 255 0 2 zeroBuf) 0 0 = true ∧
    pixelOn zeroBuf 0 0 = false :=
  ⟨draw_horizontal_line_eq busOk 255 0 2 ⟨zeroBuf, 0⟩, by decide, by decide⟩
